import Mathlib

/-!
The view and projection matrices of test-glm.cpp, and their printing.

A shallow embedding of `src/source/test-glm.cpp`.  The program builds a view
matrix with `glm::lookAt`, a projection matrix with `glm::perspective` (with
`GLM_FORCE_DEPTH_ZERO_TO_ONE` defined), negates `proj[1][1]`, and prints both
matrices with `printMatrix`.

Scalars are elements of an ordered field `α` (the claims are about real
arithmetic); the C library functions `sqrt` and `tan` and the constant `pi`
are parameters of the definitions, instantiated with `Real.sqrt`, `Real.tan`
and `Real.pi` in the theorems.

A `glm::mat4` is stored column by column: `m[i]` is column `i` and `m[i][j]`
is component `j` of that column.  `Mat4` keeps the program's indexing:
`m i j` is the C++ expression `m[i][j]`.
-/

namespace GlmTriangle

/-- The type `glm::vec3`. -/
structure Vec3 (α : Type) where
  x : α
  y : α
  z : α

/-- The type `glm::vec4`. -/
structure Vec4 (α : Type) where
  x : α
  y : α
  z : α
  w : α

/-- The type `glm::mat4`, in the program's indexing: `m i j` is `m[i][j]`,
component `j` of column `i`. -/
abbrev Mat4 (α : Type) := Fin 4 → Fin 4 → α

/-- The assignment `m[i][j] = v`. -/
def Mat4.set {α : Type} (m : Mat4 α) (i j : Fin 4) (v : α) : Mat4 α :=
  fun a b => if a = i ∧ b = j then v else m a b

section Glm

variable {α : Type} [LinearOrderedField α]

/-- Modelled from the spec: `glm::vec3 operator-`, the component-wise
difference (GLM is a library outside `src/`). -/
def Vec3.sub (a b : Vec3 α) : Vec3 α :=
  ⟨a.x - b.x, a.y - b.y, a.z - b.z⟩

/-- Modelled from the spec: `glm::vec3 operator*` by a scalar (GLM is a
library outside `src/`). -/
def Vec3.scale (a : Vec3 α) (k : α) : Vec3 α :=
  ⟨a.x * k, a.y * k, a.z * k⟩

/-- Modelled from the spec: `glm::dot` on `vec3` (GLM is a library outside
`src/`). -/
def dot (a b : Vec3 α) : α :=
  a.x * b.x + a.y * b.y + a.z * b.z

/-- Modelled from the spec: `glm::cross` (GLM is a library outside `src/`). -/
def cross (a b : Vec3 α) : Vec3 α :=
  ⟨a.y * b.z - b.y * a.z, a.z * b.x - b.z * a.x, a.x * b.y - b.x * a.y⟩

/-- Modelled from the spec: `glm::length`, the square root of the dot product
of a vector with itself (GLM is a library outside `src/`). -/
def length (sqrt : α → α) (v : Vec3 α) : α :=
  sqrt (dot v v)

/-- Modelled from the spec: `glm::normalize`, which multiplies the vector by
the inverse square root of its dot product with itself (GLM is a library
outside `src/`). -/
def normalize (sqrt : α → α) (v : Vec3 α) : Vec3 α :=
  v.scale (1 / sqrt (dot v v))

/-- Modelled from the spec: the constructor `glm::mat4(s)`, the diagonal matrix
with `s` on the diagonal (GLM is a library outside `src/`). -/
def Mat4.diag (s : α) : Mat4 α :=
  fun a b => if a = b then s else 0

/-- Modelled from the spec: the three vectors of section 4.1,
`forward = normalize(target - eye)`, `right = normalize(cross(forward, up))`
and `trueUp = cross(right, forward)`, as `glm::lookAt` computes them (GLM is a
library outside `src/`). -/
def lookAtBasis (sqrt : α → α) (eye center up : Vec3 α) : Vec3 α × Vec3 α × Vec3 α :=
  let f := normalize sqrt (center.sub eye)
  let s := normalize sqrt (cross f up)
  let u := cross s f
  (f, s, u)

/-- Modelled from the spec: `glm::lookAt` (the right-handed `lookAtRH`), which
is not under `src/`: it starts from the identity matrix and stores the basis
of section 4.1 and the translation by `-eye` expressed in that basis. -/
def lookAt (sqrt : α → α) (eye center up : Vec3 α) : Mat4 α :=
  let f := (lookAtBasis sqrt eye center up).1
  let s := (lookAtBasis sqrt eye center up).2.1
  let u := (lookAtBasis sqrt eye center up).2.2
  let Result : Mat4 α := Mat4.diag 1
  let Result := Result.set 0 0 s.x
  let Result := Result.set 1 0 s.y
  let Result := Result.set 2 0 s.z
  let Result := Result.set 0 1 u.x
  let Result := Result.set 1 1 u.y
  let Result := Result.set 2 1 u.z
  let Result := Result.set 0 2 (-f.x)
  let Result := Result.set 1 2 (-f.y)
  let Result := Result.set 2 2 (-f.z)
  let Result := Result.set 3 0 (-dot s eye)
  let Result := Result.set 3 1 (-dot u eye)
  let Result := Result.set 3 2 (dot f eye)
  Result

/-- Modelled from the spec: `glm::perspective` with
`GLM_FORCE_DEPTH_ZERO_TO_ONE` defined (the right-handed `perspectiveRH_ZO`),
which is not under `src/`: the standard perspective matrix with depth range
`[0, 1]`. -/
def perspective (tan : α → α) (fovy aspect zNear zFar : α) : Mat4 α :=
  let tanHalfFovy := tan (fovy / 2)
  let Result : Mat4 α := Mat4.diag 0
  let Result := Result.set 0 0 (1 / (aspect * tanHalfFovy))
  let Result := Result.set 1 1 (1 / tanHalfFovy)
  let Result := Result.set 2 2 (zFar / (zNear - zFar))
  let Result := Result.set 2 3 (-1)
  let Result := Result.set 3 2 (-(zFar * zNear) / (zFar - zNear))
  Result

/-- Modelled from the spec: `glm::radians`, degrees times `pi / 180` (GLM is a
library outside `src/`). -/
def radians (pi : α) (degrees : α) : α :=
  degrees * (pi / 180)

/-- Modelled from the spec: `glm::mat4 operator*` on a `glm::vec4`, the matrix
applied to a column vector: the combination of the columns `m[0]`, ..., `m[3]`
with the components of `v` (GLM is a library outside `src/`). -/
def Mat4.mulVec (m : Mat4 α) (v : Vec4 α) : Vec4 α :=
  ⟨(m 0 0 * v.x + m 1 0 * v.y) + (m 2 0 * v.z + m 3 0 * v.w),
   (m 0 1 * v.x + m 1 1 * v.y) + (m 2 1 * v.z + m 3 1 * v.w),
   (m 0 2 * v.x + m 1 2 * v.y) + (m 2 2 * v.z + m 3 2 * v.w),
   (m 0 3 * v.x + m 1 3 * v.y) + (m 2 3 * v.z + m 3 3 * v.w)⟩

/-- Row `k` of `m` as a transform acting on column vectors: component `k` of
each of the four columns, `m[0][k], m[1][k], m[2][k], m[3][k]`. -/
def Mat4.row (m : Mat4 α) (k : Fin 4) : List α :=
  [m 0 k, m 1 k, m 2 k, m 3 k]

/-- Column `k` of `m` as a transform acting on column vectors: the `vec4`
`m[k]`, that is `m[k][0], m[k][1], m[k][2], m[k][3]`. -/
def Mat4.col (m : Mat4 α) (k : Fin 4) : List α :=
  [m k 0, m k 1, m k 2, m k 3]

/-- The upper-left 3x3 block of `m` as a transform acting on column vectors:
entry (row `r`, column `c`) is `m[c][r]`. -/
def Mat4.upperLeft (m : Mat4 α) : Matrix (Fin 3) (Fin 3) α :=
  !![m 0 0, m 1 0, m 2 0;
     m 0 1, m 1 1, m 2 1;
     m 0 2, m 1 2, m 2 2]

end Glm

section Program

variable {α : Type} [LinearOrderedField α]

/-- The constant `width` of `main` (line 21), an `int`. -/
def width : Int := 1280

/-- The constant `height` of `main` (line 22), an `int`. -/
def height : Int := 720

/-- The aspect ratio `width / (float) height` of line 26: the cast converts
`height` to `float`, so `width` is converted too and the division is a
floating-point one. -/
def aspect : α := (width : α) / (height : α)

/-- The quotient `width / height` without the cast: the truncating division
of two `int`s. -/
def aspectTruncated : Int := Int.tdiv width height

/-- Line 27, `proj[1][1] *= -1.0`. -/
def flipY (proj : Mat4 α) : Mat4 α :=
  proj.set 1 1 (proj 1 1 * (-1))

/-- Line 25: the view matrix of `main`. -/
def mainView (sqrt : α → α) : Mat4 α :=
  lookAt sqrt ⟨2, 2, 2⟩ ⟨0, 0, 0⟩ ⟨0, 0, 1⟩

/-- Lines 26 and 27: the projection matrix of `main`, built by `perspective`
and then flipped.  The literals `45.0f`, `0.1f` and `10.0f` are taken at their
decimal values `45`, `1/10` and `10`. -/
def mainProj (tan : α → α) (pi : α) : Mat4 α :=
  flipY (perspective tan (radians pi 45) aspect (1 / 10) 10)

end Program

/-! ## Printing -/

section Print

variable {α : Type} [LinearOrderedField α] [FloorRing α]

/-- Modelled from the spec: the rounding of a `printf` conversion, to the
nearest integer with ties to the even one (the C library is outside `src/`). -/
def roundHalfEven (y : α) : Int :=
  let f := Int.floor y
  let r := y - f
  if r < 1 / 2 then f
  else if 1 / 2 < r then f + 1
  else if f % 2 = 0 then f else f + 1

/-- Modelled from the spec: the `printf` conversion `%+.3f` of a finite value
(the C library is outside `src/`): an explicit sign, the integer digits, a
decimal point and three decimals.  The value is an element of an ordered
field, so the negative zero of floating point is not represented. -/
def fixed3 (x : α) : List Char :=
  let n := (roundHalfEven (|x| * 1000)).toNat
  (if x < 0 then '-' else '+') ::
    (Nat.toDigits 10 (n / 1000) ++
      ['.', Nat.digitChar (n / 100 % 10), Nat.digitChar (n / 10 % 10), Nat.digitChar (n % 10)])

/-- The call `printf("\t%+.3f", v)` of line 13: the text it appends to the
standard output `out`. -/
def printCell (out : List Char) (v : α) : List Char :=
  out ++ '\t' :: fixed3 v

/-- The inner loop of `printMatrix` (lines 12 to 14) for a fixed `i`, followed
by the `printf("\n")` of line 15. -/
def printLine (mat : Mat4 α) (i : Fin 4) (out : List Char) : List Char :=
  (List.finRange 4).foldl (fun o j => printCell o (mat i j)) out ++ ['\n']

/-- The function `printMatrix` (lines 10 to 17): the outer loop over `i`,
appending to the standard output `out`. -/
def printMatrix (mat : Mat4 α) (out : List Char) : List Char :=
  (List.finRange 4).foldl (fun o i => printLine mat i o) out

/-- The function `main`: the text written to the standard output and the exit
code. -/
def main (sqrt tan : α → α) (pi : α) : List Char × Int :=
  let view := mainView sqrt
  let proj := mainProj tan pi
  let out := "view:\n".toList
  let out := printMatrix view out
  let out := out ++ "\n".toList
  let out := out ++ "proj:\n".toList
  let out := printMatrix proj out
  let out := out ++ "\n".toList
  (out, 0)

/-- The text of one printed line for the four values `vs`: each value after a
tab, in the format of `fixed3`. -/
def lineText (vs : List α) : List Char :=
  (vs.map (fun v => '\t' :: fixed3 v)).flatten

/-- The lines of a text: the pieces between its newline characters. -/
def lines : List Char → List (List Char)
  | [] => [[]]
  | c :: cs =>
    if c = '\n' then [] :: lines cs
    else
      match lines cs with
      | [] => [[c]]
      | l :: ls => (c :: l) :: ls

/-- The check that a text is in the sign-and-three-decimals format: a sign `+`
or `-`, at least one integer digit, a decimal point, and exactly three decimal
digits. -/
def isSignedFixed3 (t : List Char) : Bool :=
  match t with
  | [] => false
  | sgn :: rest =>
    (sgn == '+' || sgn == '-') &&
      (match rest.reverse with
       | d3 :: d2 :: d1 :: '.' :: ds =>
         d1.isDigit && d2.isDigit && d3.isDigit && !ds.isEmpty && ds.all Char.isDigit
       | _ => false)

end Print

/-! ## Auxiliary facts about the vector operations -/

section Lemmas

theorem cot_eq_inv_tan (x : ℝ) : Real.cot x = 1 / Real.tan x := by
  rw [Real.cot_eq_cos_div_sin, Real.tan_eq_sin_div_cos, one_div_div]

theorem inv_tan_pi_div_eight : 1 / Real.tan (Real.pi / 8) = 1 + Real.sqrt 2 := by
  have h2 : (0:ℝ) ≤ 2 := by norm_num
  have hs2 : Real.sqrt 2 * Real.sqrt 2 = 2 := Real.mul_self_sqrt h2
  have hlt : Real.sqrt 2 < 2 := by
    nlinarith [Real.sqrt_nonneg 2]
  have hpos : 0 < 2 - Real.sqrt 2 := by linarith
  have hden : 0 < Real.sqrt (2 - Real.sqrt 2) := Real.sqrt_pos.mpr hpos
  have hnum : Real.sqrt (2 + Real.sqrt 2) = (1 + Real.sqrt 2) * Real.sqrt (2 - Real.sqrt 2) := by
    rw [← Real.sqrt_sq (by positivity : (0:ℝ) ≤ 1 + Real.sqrt 2), ← Real.sqrt_mul (by positivity)]
    congr 1
    nlinarith
  rw [Real.tan_eq_sin_div_cos, one_div_div, Real.cos_pi_div_eight, Real.sin_pi_div_eight, hnum]
  field_simp

theorem radians_45 : radians Real.pi 45 / 2 = Real.pi / 8 := by
  unfold radians; ring

theorem dot_self_nonneg (v : Vec3 ℝ) : 0 ≤ dot v v := by
  unfold dot; nlinarith [mul_self_nonneg v.x, mul_self_nonneg v.y, mul_self_nonneg v.z]

theorem eq_zero_of_dot_self (v : Vec3 ℝ) (h : dot v v = 0) : v = ⟨0, 0, 0⟩ := by
  unfold dot at h
  have hx : v.x = 0 := by nlinarith [mul_self_nonneg v.x, mul_self_nonneg v.y, mul_self_nonneg v.z]
  have hy : v.y = 0 := by nlinarith [mul_self_nonneg v.x, mul_self_nonneg v.y, mul_self_nonneg v.z]
  have hz : v.z = 0 := by nlinarith [mul_self_nonneg v.x, mul_self_nonneg v.y, mul_self_nonneg v.z]
  cases v; simp_all

theorem dot_self_pos (v : Vec3 ℝ) (h : v ≠ ⟨0, 0, 0⟩) : 0 < dot v v :=
  lt_of_le_of_ne (dot_self_nonneg v) (fun h0 => h (eq_zero_of_dot_self v h0.symm))

theorem dot_normalize_self (v : Vec3 ℝ) (h : v ≠ ⟨0, 0, 0⟩) :
    dot (normalize Real.sqrt v) (normalize Real.sqrt v) = 1 := by
  have hpos : 0 < dot v v := dot_self_pos v h
  have hs : Real.sqrt (dot v v) * Real.sqrt (dot v v) = dot v v := Real.mul_self_sqrt hpos.le
  have e : dot (normalize Real.sqrt v) (normalize Real.sqrt v)
      = dot v v * (1 / Real.sqrt (dot v v)) * (1 / Real.sqrt (dot v v)) := by
    simp only [normalize, Vec3.scale, dot]; ring
  rw [e, one_div, mul_assoc, ← mul_inv, hs, mul_inv_cancel₀ hpos.ne']

theorem sub_ne_zero_of_ne (eye target : Vec3 ℝ) (h : eye ≠ target) :
    target.sub eye ≠ ⟨0, 0, 0⟩ := by
  intro h0
  apply h
  cases eye; cases target
  simp only [Vec3.sub, Vec3.mk.injEq] at h0 ⊢
  obtain ⟨h1, h2, h3⟩ := h0
  exact ⟨by linarith, by linarith, by linarith⟩

theorem cross_scale_left (v w : Vec3 ℝ) (k : ℝ) :
    cross (v.scale k) w = (cross v w).scale k := by
  simp only [cross, Vec3.scale, Vec3.mk.injEq]
  exact ⟨by ring, by ring, by ring⟩

theorem scale_ne_zero (v : Vec3 ℝ) (k : ℝ) (hv : v ≠ ⟨0, 0, 0⟩) (hk : k ≠ 0) :
    v.scale k ≠ ⟨0, 0, 0⟩ := by
  intro h0
  apply hv
  cases v
  simp only [Vec3.scale, Vec3.mk.injEq, mul_eq_zero] at h0 ⊢
  obtain ⟨h1, h2, h3⟩ := h0
  exact ⟨h1.resolve_right hk, h2.resolve_right hk, h3.resolve_right hk⟩

theorem cross_forward_ne_zero (eye target up : Vec3 ℝ) (hne : eye ≠ target)
    (hnp : cross (target.sub eye) up ≠ ⟨0, 0, 0⟩) :
    cross (normalize Real.sqrt (target.sub eye)) up ≠ ⟨0, 0, 0⟩ := by
  have hpos : 0 < dot (target.sub eye) (target.sub eye) :=
    dot_self_pos _ (sub_ne_zero_of_ne eye target hne)
  unfold normalize
  rw [cross_scale_left]
  exact scale_ne_zero _ _ hnp (one_div_ne_zero (Real.sqrt_pos.mpr hpos).ne')

theorem dot_cross_left (a b : Vec3 ℝ) : dot (cross a b) a = 0 := by
  simp only [dot, cross]; ring

theorem dot_cross_right (a b : Vec3 ℝ) : dot (cross a b) b = 0 := by
  simp only [dot, cross]; ring

theorem dot_comm (a b : Vec3 ℝ) : dot a b = dot b a := by
  simp only [dot]; ring

theorem dot_scale_left (a b : Vec3 ℝ) (k : ℝ) : dot (a.scale k) b = k * dot a b := by
  simp only [dot, Vec3.scale]; ring

theorem dot_cross_self (a b : Vec3 ℝ) :
    dot (cross a b) (cross a b) = dot a a * dot b b - dot a b * dot a b := by
  simp only [dot, cross]; ring

/-- The basis of `lookAt` is orthonormal, stated with dot products. -/
theorem lookAtBasis_dots (eye target up : Vec3 ℝ) (hne : eye ≠ target)
    (hnp : cross (target.sub eye) up ≠ ⟨0, 0, 0⟩) :
    let f := (lookAtBasis Real.sqrt eye target up).1
    let s := (lookAtBasis Real.sqrt eye target up).2.1
    let u := (lookAtBasis Real.sqrt eye target up).2.2
    dot f f = 1 ∧ dot s s = 1 ∧ dot u u = 1 ∧ dot f s = 0 ∧ dot f u = 0 ∧ dot s u = 0 := by
  intro f s u
  have hff : dot f f = 1 := dot_normalize_self _ (sub_ne_zero_of_ne eye target hne)
  have hss : dot s s = 1 := dot_normalize_self _ (cross_forward_ne_zero eye target up hne hnp)
  have hsf : dot s f = 0 := by
    show dot ((cross f up).scale _) f = 0
    rw [dot_scale_left, dot_cross_left, mul_zero]
  have huu : dot u u = 1 := by
    show dot (cross s f) (cross s f) = 1
    rw [dot_cross_self, hss, hff, hsf]; ring
  have hfu : dot f u = 0 := by
    show dot f (cross s f) = 0
    rw [dot_comm, dot_cross_right]
  have hsu : dot s u = 0 := by
    show dot s (cross s f) = 0
    rw [dot_comm, dot_cross_left]
  exact ⟨hff, hss, huu, by rw [dot_comm]; exact hsf, hfu, hsu⟩

end Lemmas

/-! ## The view matrix -/

section View

/-- C1: for every eye, target and up with `eye ≠ target` and `up` not parallel
to `target - eye` (their cross product is not zero), the view matrix applied to
the homogeneous eye point `(eye.x, eye.y, eye.z, 1)` as a column vector is
exactly `(0, 0, 0, 1)` in real arithmetic, hence each component is within
`1e-5` of it. -/
theorem view_maps_eye_to_origin (eye target up : Vec3 ℝ) (hne : eye ≠ target)
    (hnp : cross (target.sub eye) up ≠ ⟨0, 0, 0⟩) :
    (lookAt Real.sqrt eye target up).mulVec ⟨eye.x, eye.y, eye.z, 1⟩ = ⟨0, 0, 0, 1⟩ ∧
    (let r := (lookAt Real.sqrt eye target up).mulVec ⟨eye.x, eye.y, eye.z, 1⟩
     |r.x - 0| ≤ 1 / 100000 ∧ |r.y - 0| ≤ 1 / 100000 ∧ |r.z - 0| ≤ 1 / 100000 ∧
       |r.w - 1| ≤ 1 / 100000) := by
  have _h1 := hne
  have _h2 := hnp
  have e : (lookAt Real.sqrt eye target up).mulVec ⟨eye.x, eye.y, eye.z, 1⟩ = ⟨0, 0, 0, 1⟩ := by
    simp only [Mat4.mulVec, lookAt, Mat4.set, Mat4.diag, dot, Vec4.mk.injEq]
    simp
    refine ⟨?_, ?_, ?_⟩ <;> ring
  refine ⟨e, ?_⟩
  rw [e]
  norm_num

/-- The instance of C1 at the inputs of `main`: eye `(2,2,2)`, target
`(0,0,0)`, up `(0,0,1)`. -/
theorem view_maps_eye_to_origin_witness :
    (mainView Real.sqrt).mulVec ⟨2, 2, 2, 1⟩ = ⟨0, 0, 0, 1⟩ :=
  (view_maps_eye_to_origin ⟨2, 2, 2⟩ ⟨0, 0, 0⟩ ⟨0, 0, 1⟩
    (by simp) (by simp [cross, Vec3.sub])).1

/-- C5: for every eye, target and up, and so for the inputs of `main`, the
bottom row of the view matrix as a transform on column vectors, `view[0][3]`,
`view[1][3]`, `view[2][3]`, `view[3][3]`, is `(0, 0, 0, 1)`. -/
theorem view_bottom_row :
    (∀ eye target up : Vec3 ℝ, (lookAt Real.sqrt eye target up).row 3 = [0, 0, 0, 1]) ∧
    (mainView Real.sqrt) 0 3 = 0 ∧ (mainView Real.sqrt) 1 3 = 0 ∧
    (mainView Real.sqrt) 2 3 = 0 ∧ (mainView Real.sqrt) 3 3 = 1 := by
  refine ⟨fun eye target up => ?_, ?_, ?_, ?_, ?_⟩ <;>
    simp [mainView, Mat4.row, lookAt, Mat4.set, Mat4.diag]

/-- C9: for every eye, target and up with `eye ≠ target` and `up` not parallel
to `target - eye`, the vectors `forward`, `right` and `trueUp` of the view
matrix have length 1 and pairwise dot product 0; the rows of the upper-left
3x3 block of the view matrix, as a transform on column vectors, are `right`,
`trueUp` and `-forward`, and that block is an orthogonal matrix. -/
theorem lookAt_basis_orthonormal (eye target up : Vec3 ℝ) (hne : eye ≠ target)
    (hnp : cross (target.sub eye) up ≠ ⟨0, 0, 0⟩) :
    let f := (lookAtBasis Real.sqrt eye target up).1
    let s := (lookAtBasis Real.sqrt eye target up).2.1
    let u := (lookAtBasis Real.sqrt eye target up).2.2
    let view := lookAt Real.sqrt eye target up
    f = normalize Real.sqrt (target.sub eye) ∧ s = normalize Real.sqrt (cross f up) ∧
    u = cross s f ∧
    length Real.sqrt f = 1 ∧ length Real.sqrt s = 1 ∧ length Real.sqrt u = 1 ∧
    dot f s = 0 ∧ dot f u = 0 ∧ dot s u = 0 ∧
    view.upperLeft = !![s.x, s.y, s.z; u.x, u.y, u.z; -f.x, -f.y, -f.z] ∧
    view.upperLeft ∈ Matrix.orthogonalGroup (Fin 3) ℝ := by
  intro f s u view
  obtain ⟨hff, hss, huu, hfs, hfu, hsu⟩ := lookAtBasis_dots eye target up hne hnp
  have hb : view.upperLeft = !![s.x, s.y, s.z; u.x, u.y, u.z; -f.x, -f.y, -f.z] := by
    simp [Mat4.upperLeft, view, lookAt, Mat4.set, Mat4.diag, f, s, u]
  refine ⟨rfl, rfl, rfl, ?_, ?_, ?_, hfs, hfu, hsu, hb, ?_⟩
  · show Real.sqrt (dot f f) = 1
    rw [hff, Real.sqrt_one]
  · show Real.sqrt (dot s s) = 1
    rw [hss, Real.sqrt_one]
  · show Real.sqrt (dot u u) = 1
    rw [huu, Real.sqrt_one]
  · rw [Matrix.mem_orthogonalGroup_iff, hb]
    simp only [dot] at hff hss huu hfs hfu hsu
    ext r c
    fin_cases r <;> fin_cases c <;>
      simp [Matrix.mul_apply, Fin.sum_univ_three, Matrix.one_apply] <;> linarith

/-- The instance of C9 at the inputs of `main`: the three basis vectors of the
program's view matrix have length 1. -/
theorem lookAt_basis_orthonormal_witness :
    length Real.sqrt (lookAtBasis Real.sqrt (⟨2, 2, 2⟩ : Vec3 ℝ) ⟨0, 0, 0⟩ ⟨0, 0, 1⟩).1 = 1 ∧
    length Real.sqrt (lookAtBasis Real.sqrt (⟨2, 2, 2⟩ : Vec3 ℝ) ⟨0, 0, 0⟩ ⟨0, 0, 1⟩).2.1 = 1 ∧
    length Real.sqrt (lookAtBasis Real.sqrt (⟨2, 2, 2⟩ : Vec3 ℝ) ⟨0, 0, 0⟩ ⟨0, 0, 1⟩).2.2 = 1 :=
  have h := lookAt_basis_orthonormal ⟨2, 2, 2⟩ ⟨0, 0, 0⟩ ⟨0, 0, 1⟩
    (by simp) (by simp [cross, Vec3.sub])
  ⟨h.2.2.2.1, h.2.2.2.2.1, h.2.2.2.2.2.1⟩

end View

/-! ## The projection matrix -/

section Projection

/-- C2: for every `0 < near < far`, every field of view and aspect ratio, the
projection matrix (`perspective` with depth zero to one, then the `[1][1]`
flip) maps the near-plane point `(x, y, -near, 1)` to clip coordinates with
`w = near` and `z / w = 0`, and the far-plane point `(x, y, -far, 1)` to clip
coordinates with `w = far` and `z / w = 1`. -/
theorem depth_range_zero_to_one (fov asp near far x y : ℝ) (hnear : 0 < near)
    (hfar : near < far) :
    ((flipY (perspective Real.tan fov asp near far)).mulVec ⟨x, y, -near, 1⟩).w = near ∧
    ((flipY (perspective Real.tan fov asp near far)).mulVec ⟨x, y, -near, 1⟩).z /
      ((flipY (perspective Real.tan fov asp near far)).mulVec ⟨x, y, -near, 1⟩).w = 0 ∧
    ((flipY (perspective Real.tan fov asp near far)).mulVec ⟨x, y, -far, 1⟩).w = far ∧
    ((flipY (perspective Real.tan fov asp near far)).mulVec ⟨x, y, -far, 1⟩).z /
      ((flipY (perspective Real.tan fov asp near far)).mulVec ⟨x, y, -far, 1⟩).w = 1 := by
  have hd : far - near ≠ 0 := by linarith
  have hd2 : near - far ≠ 0 := by linarith
  have hf : far ≠ 0 := by linarith
  have hwn : ((flipY (perspective Real.tan fov asp near far)).mulVec ⟨x, y, -near, 1⟩).w
      = near := by
    simp [flipY, perspective, Mat4.mulVec, Mat4.set, Mat4.diag]
  have hzn : ((flipY (perspective Real.tan fov asp near far)).mulVec ⟨x, y, -near, 1⟩).z
      = 0 := by
    simp [flipY, perspective, Mat4.mulVec, Mat4.set, Mat4.diag]
    field_simp
    ring
  have hwf : ((flipY (perspective Real.tan fov asp near far)).mulVec ⟨x, y, -far, 1⟩).w
      = far := by
    simp [flipY, perspective, Mat4.mulVec, Mat4.set, Mat4.diag]
  have hzf : ((flipY (perspective Real.tan fov asp near far)).mulVec ⟨x, y, -far, 1⟩).z
      = far := by
    simp [flipY, perspective, Mat4.mulVec, Mat4.set, Mat4.diag]
    field_simp
    ring
  refine ⟨hwn, ?_, hwf, ?_⟩
  · rw [hzn, zero_div]
  · rw [hzf, hwf, div_self hf]

/-- The instance of C2 at the parameters of `main`, `near = 0.1` and
`far = 10`, for the point on the axis. -/
theorem depth_range_zero_to_one_witness :
    ((mainProj Real.tan Real.pi).mulVec ⟨0, 0, -(1 / 10), 1⟩).z /
      ((mainProj Real.tan Real.pi).mulVec ⟨0, 0, -(1 / 10), 1⟩).w = 0 ∧
    ((mainProj Real.tan Real.pi).mulVec ⟨0, 0, -10, 1⟩).z /
      ((mainProj Real.tan Real.pi).mulVec ⟨0, 0, -10, 1⟩).w = 1 :=
  have h := depth_range_zero_to_one (radians Real.pi 45) aspect (1 / 10) 10 0 0
    (by norm_num) (by norm_num)
  ⟨h.2.1, h.2.2.2⟩

/-- C3, as the claim states it, fails: with the parameters of `main` the
element `proj[3][2]`, in the program's indexing, is not `-1`. -/
theorem proj_3_2_ne_neg_one : (mainProj Real.tan Real.pi) 3 2 ≠ -1 := by
  simp [mainProj, flipY, perspective, Mat4.set, Mat4.diag]
  norm_num

/-- C3, amended: with the parameters of `main` the element equal to `-1` is
`proj[2][3]` in the program's indexing (row 3, column 2 of the matrix as a
transform on column vectors), and `proj[3][2]` is
`-(far * near) / (far - near) = -10/99`. -/
theorem proj_2_3_eq_neg_one :
    (mainProj Real.tan Real.pi) 2 3 = -1 ∧ (mainProj Real.tan Real.pi) 3 2 = -(10 / 99) := by
  constructor
  · simp [mainProj, flipY, perspective, Mat4.set, Mat4.diag]
  · simp [mainProj, flipY, perspective, Mat4.set, Mat4.diag]
    norm_num

/-- C4: for every field of view strictly between 0 and pi, the element
`proj[1][1]` after the flip of line 27 is strictly negative and its absolute
value is `cot (fov / 2)`, the value `perspective` stored there; for the
parameters of `main` (45 degrees) it is `-(1 + sqrt 2)`. -/
theorem proj_1_1_flipped (fov asp near far : ℝ) (h0 : 0 < fov) (hpi : fov < Real.pi) :
    (flipY (perspective Real.tan fov asp near far)) 1 1 < 0 ∧
    |(flipY (perspective Real.tan fov asp near far)) 1 1| = Real.cot (fov / 2) ∧
    |(flipY (perspective Real.tan fov asp near far)) 1 1|
      = (perspective Real.tan fov asp near far) 1 1 ∧
    (mainProj Real.tan Real.pi) 1 1 = -(1 + Real.sqrt 2) := by
  have ht : 0 < Real.tan (fov / 2) :=
    Real.tan_pos_of_pos_of_lt_pi_div_two (by linarith) (by linarith)
  have hc : 0 < 1 / Real.tan (fov / 2) := one_div_pos.mpr ht
  have e1 : (flipY (perspective Real.tan fov asp near far)) 1 1 = -(1 / Real.tan (fov / 2)) := by
    simp [flipY, perspective, Mat4.set, Mat4.diag]
  have e2 : (perspective Real.tan fov asp near far) 1 1 = 1 / Real.tan (fov / 2) := by
    simp [perspective, Mat4.set, Mat4.diag]
  have e3 : (mainProj Real.tan Real.pi) 1 1 = -(1 / Real.tan (radians Real.pi 45 / 2)) := by
    simp [mainProj, flipY, perspective, Mat4.set, Mat4.diag]
  refine ⟨?_, ?_, ?_, ?_⟩
  · rw [e1]; linarith
  · rw [e1, abs_neg, abs_of_pos hc, cot_eq_inv_tan]
  · rw [e1, e2, abs_neg, abs_of_pos hc]
  · rw [e3, radians_45, inv_tan_pi_div_eight]

/-- The instance of C4 at the field of view of `main`, 45 degrees. -/
theorem proj_1_1_flipped_witness :
    (mainProj Real.tan Real.pi) 1 1 < 0 ∧
    |(mainProj Real.tan Real.pi) 1 1| = Real.cot (radians Real.pi 45 / 2) :=
  have h := proj_1_1_flipped (radians Real.pi 45) aspect (1 / 10) 10
    (by unfold radians; linarith [Real.pi_pos])
    (by unfold radians; linarith [Real.pi_pos])
  ⟨h.1, h.2.1⟩

/-- C8: the sign flip of line 27 is self-inverse: flipping any matrix twice
gives the matrix back, so the twice-flipped `[1][1]` entry of the projection
matrix is the value `cot (fov / 2)` that `perspective` stored. -/
theorem flipY_flipY :
    (∀ p : Mat4 ℝ, flipY (flipY p) = p) ∧
    (∀ fov asp near far : ℝ,
      (flipY (flipY (perspective Real.tan fov asp near far))) 1 1
        = (perspective Real.tan fov asp near far) 1 1 ∧
      (flipY (flipY (perspective Real.tan fov asp near far))) 1 1 = Real.cot (fov / 2)) := by
  have h : ∀ p : Mat4 ℝ, flipY (flipY p) = p := by
    intro p
    funext a b
    by_cases hab : a = 1 ∧ b = 1
    · obtain ⟨rfl, rfl⟩ := hab
      simp [flipY, Mat4.set]
    · simp [flipY, Mat4.set, hab]
  refine ⟨h, fun fov asp near far => ?_⟩
  rw [h, cot_eq_inv_tan]
  simp [perspective, Mat4.set, Mat4.diag]

/-- C10: the aspect ratio passed to `perspective` is the real quotient
`1280 / 720 = 16/9`, not the truncated integer quotient `1`; so `proj[0][0]`
is `cot (fov / 2) * 9 / 16`, that is `9/16` of the magnitude of `proj[1][1]`,
and differs from it. -/
theorem aspect_is_real_quotient :
    (aspect : ℝ) = 16 / 9 ∧ aspectTruncated = 1 ∧ (aspect : ℝ) ≠ (aspectTruncated : ℝ) ∧
    (mainProj Real.tan Real.pi) 0 0 = Real.cot (radians Real.pi 45 / 2) * 9 / 16 ∧
    (mainProj Real.tan Real.pi) 0 0 = 9 / 16 * |(mainProj Real.tan Real.pi) 1 1| ∧
    (mainProj Real.tan Real.pi) 0 0 ≠ |(mainProj Real.tan Real.pi) 1 1| := by
  have ha : (aspect : ℝ) = 16 / 9 := by
    simp only [aspect, width, height]; norm_num
  have ht : aspectTruncated = 1 := by decide
  have hs : (0:ℝ) ≤ Real.sqrt 2 := Real.sqrt_nonneg 2
  have e0 : (mainProj Real.tan Real.pi) 0 0 = 9 / 16 * (1 / Real.tan (radians Real.pi 45 / 2)) := by
    simp [mainProj, flipY, perspective, Mat4.set, Mat4.diag, ha]
    ring
  have e1 : (mainProj Real.tan Real.pi) 1 1 = -(1 / Real.tan (radians Real.pi 45 / 2)) := by
    simp [mainProj, flipY, perspective, Mat4.set, Mat4.diag]
  have hc : 1 / Real.tan (radians Real.pi 45 / 2) = 1 + Real.sqrt 2 := by
    rw [radians_45, inv_tan_pi_div_eight]
  refine ⟨ha, ht, ?_, ?_, ?_, ?_⟩
  · rw [ha, ht]; norm_num
  · rw [e0, cot_eq_inv_tan]; ring
  · rw [e0, e1, abs_neg, hc, abs_of_pos (by linarith)]
  · rw [e0, e1, abs_neg, hc, abs_of_pos (by linarith)]
    intro h
    linarith

end Projection

/-! ## Auxiliary facts about printing -/

section PrintLemmas
variable {α : Type} [LinearOrderedField α] [FloorRing α]

theorem finRange_four : List.finRange 4 = [0, 1, 2, 3] := by decide

theorem isDigit_digitChar (m : Nat) (h : m < 10) : (Nat.digitChar m).isDigit = true := by
  interval_cases m <;> decide

theorem toDigitsCore_all (P : Char → Prop) (hP : ∀ m, m < 10 → P (Nat.digitChar m)) :
    ∀ (fuel n : Nat) (ds : List Char), (∀ c ∈ ds, P c) →
      ∀ c ∈ Nat.toDigitsCore 10 fuel n ds, P c := by
  intro fuel
  induction fuel with
  | zero => intro n ds h; simpa [Nat.toDigitsCore] using h
  | succ k ih =>
    intro n ds h
    have hd : ∀ c ∈ Nat.digitChar (n % 10) :: ds, P c := by
      intro c hc
      rcases List.mem_cons.mp hc with rfl | hc
      · exact hP _ (Nat.mod_lt _ (by norm_num))
      · exact h c hc
    unfold Nat.toDigitsCore
    dsimp only
    split_ifs
    · exact hd
    · exact ih _ _ hd

theorem toDigitsCore_ne_nil : ∀ (fuel n : Nat) (ds : List Char), ds ≠ [] →
    Nat.toDigitsCore 10 fuel n ds ≠ [] := by
  intro fuel
  induction fuel with
  | zero => intro n ds h; simpa [Nat.toDigitsCore] using h
  | succ k ih =>
    intro n ds _
    unfold Nat.toDigitsCore
    dsimp only
    split_ifs
    · exact List.cons_ne_nil _ _
    · exact ih _ _ (List.cons_ne_nil _ _)

theorem toDigits_ne_nil (n : Nat) : Nat.toDigits 10 n ≠ [] := by
  unfold Nat.toDigits Nat.toDigitsCore
  dsimp only
  split_ifs
  · exact List.cons_ne_nil _ _
  · exact toDigitsCore_ne_nil _ _ _ (List.cons_ne_nil _ _)

theorem toDigits_isDigit (n : Nat) : ∀ c ∈ Nat.toDigits 10 n, c.isDigit = true :=
  toDigitsCore_all (fun c => c.isDigit = true) isDigit_digitChar _ _ _ (by simp)

theorem roundHalfEven_eq (y : α) (n : Int) (h1 : (n : α) - 1 / 2 < y) (h2 : y < n + 1 / 2) :
    roundHalfEven y = n := by
  unfold roundHalfEven
  rcases lt_or_le y (n : α) with h | h
  · have hf : Int.floor y = n - 1 := by
      rw [Int.floor_eq_iff]; push_cast; constructor <;> linarith
    simp only [hf]; push_cast
    rw [if_neg (by linarith), if_pos (by linarith)]
    ring
  · have hf : Int.floor y = n := by
      rw [Int.floor_eq_iff]; constructor <;> linarith
    simp only [hf]
    rw [if_pos (by linarith)]


theorem fixed3_eq (x : α) (n : Nat) (h1 : (n : α) - 1 / 2 < |x| * 1000)
    (h2 : |x| * 1000 < n + 1 / 2) :
    fixed3 x = (if x < 0 then '-' else '+') ::
      (Nat.toDigits 10 (n / 1000) ++
        ['.', Nat.digitChar (n / 100 % 10), Nat.digitChar (n / 10 % 10),
          Nat.digitChar (n % 10)]) := by
  have h : roundHalfEven (|x| * 1000) = (n : Int) :=
    roundHalfEven_eq _ _ (by push_cast; exact h1) (by push_cast; exact h2)
  simp only [fixed3, h, Int.toNat_ofNat]

theorem isDigit_ne_newline (c : Char) (h : c.isDigit = true) : c ≠ '\n' := by
  rintro rfl
  revert h
  decide

theorem newline_not_mem_fixed3 (x : α) : '\n' ∉ fixed3 x := by
  intro h
  simp only [fixed3, List.mem_cons, List.mem_append, List.mem_singleton] at h
  rcases h with h | h | h | h | h | h
  · split_ifs at h <;> revert h <;> decide
  · exact isDigit_ne_newline _ (toDigits_isDigit _ _ h) rfl
  · revert h; decide
  · exact isDigit_ne_newline _ (isDigit_digitChar _ (Nat.mod_lt _ (by norm_num))) h.symm
  · exact isDigit_ne_newline _ (isDigit_digitChar _ (Nat.mod_lt _ (by norm_num))) h.symm
  · rcases h with h | h
    · exact isDigit_ne_newline _ (isDigit_digitChar _ (Nat.mod_lt _ (by norm_num))) h.symm
    · exact absurd h (List.not_mem_nil _)

theorem isSignedFixed3_fixed3 (x : α) : isSignedFixed3 (fixed3 x) = true := by
  have hs : ((if x < 0 then '-' else '+') == '+' || (if x < 0 then '-' else '+') == '-') = true := by
    split_ifs <;> decide
  have hne : (Nat.toDigits 10 ((roundHalfEven (|x| * 1000)).toNat / 1000)).reverse.isEmpty = false := by
    have := toDigits_ne_nil ((roundHalfEven (|x| * 1000)).toNat / 1000)
    cases hh : Nat.toDigits 10 ((roundHalfEven (|x| * 1000)).toNat / 1000) with
    | nil => exact absurd hh this
    | cons a l => simp
  have hall : (Nat.toDigits 10 ((roundHalfEven (|x| * 1000)).toNat / 1000)).reverse.all Char.isDigit = true := by
    rw [List.all_eq_true]
    intro c hc
    exact toDigits_isDigit _ c (List.mem_reverse.mp hc)
  simp only [isSignedFixed3, fixed3, List.reverse_append, List.reverse_cons, List.reverse_nil,
    List.nil_append, List.cons_append, hs, Bool.true_and, hne, hall, Bool.not_false,
    isDigit_digitChar _ (Nat.mod_lt _ (show 0 < 10 by norm_num)), Bool.and_self]

theorem lines_append_newline (a b : List Char) (h : '\n' ∉ a) :
    lines (a ++ '\n' :: b) = a :: lines b := by
  induction a with
  | nil => simp [lines]
  | cons c cs ih =>
    have hc : c ≠ '\n' := fun e => h (by simp [e])
    have hcs : '\n' ∉ cs := fun e => h (List.mem_cons_of_mem _ e)
    simp [lines, hc, ih hcs]

theorem newline_not_mem_lineText (vs : List α) : '\n' ∉ lineText vs := by
  induction vs with
  | nil => simp [lineText]
  | cons v vs ih =>
    intro h
    simp only [lineText, List.map_cons, List.flatten_cons, List.mem_append, List.mem_cons] at h
    rcases h with (h | h) | h
    · revert h; decide
    · exact newline_not_mem_fixed3 v h
    · exact ih h

theorem printMatrix_eq (m : Mat4 α) (out : List Char) :
    printMatrix m out = out ++ (lineText (m.col 0) ++ '\n' :: (lineText (m.col 1) ++ '\n' ::
      (lineText (m.col 2) ++ '\n' :: (lineText (m.col 3) ++ ['\n'])))) := by
  simp [printMatrix, printLine, printCell, lineText, Mat4.col, finRange_four]

end PrintLemmas

section PrintValues

theorem sqrt_twelve : Real.sqrt 12 = 2 * Real.sqrt 3 := by
  rw [show (12:ℝ) = 2 ^ 2 * 3 by norm_num, Real.sqrt_mul (by positivity),
    Real.sqrt_sq (by norm_num)]

theorem mainView_col_three :
    (mainView Real.sqrt).col 3 = [0, 0, -(2 * Real.sqrt 3), 1] := by
  have h3 : Real.sqrt 3 * Real.sqrt 3 = 3 := Real.mul_self_sqrt (by norm_num)
  have hp : 0 < Real.sqrt 3 := Real.sqrt_pos.mpr (by norm_num)
  have e0 : (mainView Real.sqrt) 3 0 = 0 := by
    simp [mainView, lookAt, lookAtBasis, normalize, cross, dot, Vec3.sub, Vec3.scale,
      Mat4.set, Mat4.diag]
  have e1 : (mainView Real.sqrt) 3 1 = 0 := by
    simp [mainView, lookAt, lookAtBasis, normalize, cross, dot, Vec3.sub, Vec3.scale,
      Mat4.set, Mat4.diag]
    ring
  have e2 : (mainView Real.sqrt) 3 2 = -(2 * Real.sqrt 3) := by
    simp only [mainView, lookAt, lookAtBasis, normalize, dot, Vec3.sub, Vec3.scale,
      Mat4.set]
    norm_num
    rw [sqrt_twelve]
    field_simp
    nlinarith
  have e3 : (mainView Real.sqrt) 3 3 = 1 := by
    simp [mainView, lookAt, Mat4.set, Mat4.diag]
  simp only [Mat4.col, e0, e1, e2, e3]

theorem mainView_row_three : (mainView Real.sqrt).row 3 = [0, 0, 0, 1] := by
  simp [mainView, Mat4.row, lookAt, Mat4.set, Mat4.diag]

theorem fixed3_zero : fixed3 (0 : ℝ) = "+0.000".toList := by
  rw [fixed3_eq 0 0 (by norm_num) (by norm_num)]
  simp
  decide

theorem fixed3_one : fixed3 (1 : ℝ) = "+1.000".toList := by
  rw [fixed3_eq 1 1000 (by norm_num) (by norm_num)]
  simp
  decide

theorem fixed3_neg_half : fixed3 (-(1 / 2) : ℝ) = "-0.500".toList := by
  rw [fixed3_eq (-(1 / 2)) 500 (by rw [abs_neg, abs_of_pos (by norm_num)]; norm_num)
    (by rw [abs_neg, abs_of_pos (by norm_num)]; norm_num)]
  norm_num
  decide

theorem fixed3_neg_two_sqrt_three : fixed3 (-(2 * Real.sqrt 3)) = "-3.464".toList := by
  have hp : 0 < Real.sqrt 3 := Real.sqrt_pos.mpr (by norm_num)
  have hlo : (173175 : ℝ) / 100000 < Real.sqrt 3 := by
    rw [Real.lt_sqrt (by norm_num)]; norm_num
  have hhi : Real.sqrt 3 < (173225 : ℝ) / 100000 := by
    rw [Real.sqrt_lt' (by norm_num)]; norm_num
  have ha : |(-(2 * Real.sqrt 3))| = 2 * Real.sqrt 3 := by
    rw [abs_neg, abs_of_pos (by linarith)]
  rw [fixed3_eq _ 3464 (by rw [ha]; push_cast; linarith) (by rw [ha]; push_cast; linarith)]
  rw [if_pos (by linarith)]
  decide

end PrintValues
/-! ## The printed text -/

section Printing

/-- The text `main` writes, line by line: the label `view:`, the four lines of
the view matrix, an empty line, the label `proj:`, the four lines of the
projection matrix, an empty line; each matrix line holds `m[k][0..3]`. -/
theorem lines_main :
    lines (main Real.sqrt Real.tan Real.pi).1 =
      ["view:".toList,
       lineText ((mainView Real.sqrt).col 0), lineText ((mainView Real.sqrt).col 1),
       lineText ((mainView Real.sqrt).col 2), lineText ((mainView Real.sqrt).col 3),
       [], "proj:".toList,
       lineText ((mainProj Real.tan Real.pi).col 0), lineText ((mainProj Real.tan Real.pi).col 1),
       lineText ((mainProj Real.tan Real.pi).col 2), lineText ((mainProj Real.tan Real.pi).col 3),
       [], []] := by
  have hv : '\n' ∉ "view:".toList := by decide
  have hp : '\n' ∉ "proj:".toList := by decide
  have e : (main Real.sqrt Real.tan Real.pi).1 =
      "view:".toList ++ '\n' :: (lineText ((mainView Real.sqrt).col 0) ++ '\n' ::
      (lineText ((mainView Real.sqrt).col 1) ++ '\n' ::
      (lineText ((mainView Real.sqrt).col 2) ++ '\n' ::
      (lineText ((mainView Real.sqrt).col 3) ++ '\n' :: ([] ++ '\n' ::
      ("proj:".toList ++ '\n' :: (lineText ((mainProj Real.tan Real.pi).col 0) ++ '\n' ::
      (lineText ((mainProj Real.tan Real.pi).col 1) ++ '\n' ::
      (lineText ((mainProj Real.tan Real.pi).col 2) ++ '\n' ::
      (lineText ((mainProj Real.tan Real.pi).col 3) ++ '\n' :: ([] ++ '\n' :: [])))))))))))
      := by
    simp only [main, printMatrix_eq]
    simp
  rw [e]
  rw [lines_append_newline _ _ hv]
  repeat rw [lines_append_newline _ _ (newline_not_mem_lineText _)]
  rw [lines_append_newline _ _ (List.not_mem_nil _), lines_append_newline _ _ hp]
  repeat rw [lines_append_newline _ _ (newline_not_mem_lineText _)]
  rw [lines_append_newline _ _ (List.not_mem_nil _)]
  rfl

/-- C6, as the claim states it, fails: the fourth line of the `view:` block is
not the text of the bottom row `(0, 0, 0, 1)` of the view matrix, which is
`"\t+0.000\t+0.000\t+0.000\t+1.000"`. -/
theorem view_fourth_line_ne_bottom_row :
    lineText ((mainView Real.sqrt).row 3) = "\t+0.000\t+0.000\t+0.000\t+1.000".toList ∧
    (lines (main Real.sqrt Real.tan Real.pi).1)[4]?
      ≠ some "\t+0.000\t+0.000\t+0.000\t+1.000".toList := by
  constructor
  · rw [mainView_row_three]
    simp only [lineText, List.map_cons, List.map_nil, List.flatten_cons, List.flatten_nil,
      fixed3_zero, fixed3_one]
    decide
  · rw [lines_main, mainView_col_three]
    simp only [lineText, List.map_cons, List.map_nil, List.flatten_cons, List.flatten_nil,
      fixed3_zero, fixed3_one, fixed3_neg_two_sqrt_three]
    decide

/-- C6, amended: for every matrix, the `k`-th line `printMatrix` writes lists
`m[k][0], m[k][1], m[k][2], m[k][3]`, which is column `k` of `m` as a transform
acting on column vectors; for the view matrix of `main` the fourth line of the
`view:` block lists `(0, 0, -2 * sqrt 3, 1)`, its third cell is `-3.464` and
its last cell `+1.000`. -/
theorem printMatrix_lines_are_columns :
    (∀ m : Mat4 ℝ, lines (printMatrix m []) =
      [lineText (m.col 0), lineText (m.col 1), lineText (m.col 2), lineText (m.col 3), []]) ∧
    (∀ (m : Mat4 ℝ) (k : Fin 4), lineText (m.col k) =
      '\t' :: fixed3 (m k 0) ++ ('\t' :: fixed3 (m k 1) ++
        ('\t' :: fixed3 (m k 2) ++ ('\t' :: fixed3 (m k 3))))) ∧
    (lines (main Real.sqrt Real.tan Real.pi).1)[4]? = some (lineText ((mainView Real.sqrt).col 3)) ∧
    (mainView Real.sqrt).col 3 = [0, 0, -(2 * Real.sqrt 3), 1] ∧
    fixed3 (-(2 * Real.sqrt 3)) = "-3.464".toList ∧ fixed3 (1 : ℝ) = "+1.000".toList := by
  refine ⟨fun m => ?_, fun m k => ?_, ?_, mainView_col_three, fixed3_neg_two_sqrt_three,
    fixed3_one⟩
  · rw [printMatrix_eq, List.nil_append]
    repeat rw [lines_append_newline _ _ (newline_not_mem_lineText _)]
    rfl
  · simp [lineText, Mat4.col]
  · rw [lines_main]
    rfl

/-- C7: for every matrix, each cell `printMatrix` writes is a tab followed by a
text with an explicit sign, integer digits, a decimal point and exactly three
decimal digits; each line is four such cells followed by a newline; and a
matrix holding `-0.5` at `mat[0][0]` has its output begin with `"\t-0.500"`. -/
theorem printMatrix_cell_format (m : Mat4 ℝ) :
    (∀ i j : Fin 4, isSignedFixed3 (fixed3 (m i j)) = true) ∧
    (∀ (i : Fin 4) (out : List Char), printLine m i out =
      out ++ ('\t' :: fixed3 (m i 0) ++ ('\t' :: fixed3 (m i 1) ++
        ('\t' :: fixed3 (m i 2) ++ ('\t' :: fixed3 (m i 3) ++ ['\n']))))) ∧
    printMatrix m [] = printLine m 3 (printLine m 2 (printLine m 1 (printLine m 0 []))) ∧
    "\t-0.500".toList <+: printMatrix (m.set 0 0 (-(1 / 2))) [] := by
  refine ⟨fun i j => isSignedFixed3_fixed3 _, fun i out => ?_, ?_, ?_⟩
  · simp [printLine, printCell, finRange_four]
  · simp [printMatrix, finRange_four]
  · rw [printMatrix_eq, List.nil_append]
    have h : (m.set 0 0 (-(1 / 2))) 0 0 = -(1 / 2) := by simp [Mat4.set]
    simp only [lineText, Mat4.col, List.map_cons, List.flatten_cons, h, fixed3_neg_half]
    exact ⟨_, rfl⟩

end Printing

end GlmTriangle
